import Mathlib

/-!
Verification of the breakthroughIdeas storage / session layer.

Shallow embedding of the JavaScript source:
* `FileStorage` (src/storage.js) — namespaced localStorage wrapper,
* `UserSession` helpers (user-session module): stamp generation,
  nickname handling, activity logging,
* the mutation flows `addComment`, `rateProject`, project submission,
* `getAverageRating` (src/rating-functions.js),
* `groupCommentsByDateAndUser` (src/utils/date-formater.js),
* `populateExampleProjects` (project-functions module),
* `sanitizeInput` (src/utils.js).

JavaScript values stored in localStorage are modelled by the `JSValue`
inductive; the storage map holds parsed values directly (JSON
serialization round-trips are modelled as the identity, and the
catch-all branches of the source collapse to the default-returning
path, which is what they do on every input relevant here).
Times (`Date.now()`) are integers in epoch milliseconds.
-/

/-- A JSON-serializable JavaScript value, as stored by `FileStorage`. -/
inductive JSValue where
  | null
  | bool (b : Bool)
  | num (n : Int)
  | str (s : String)
  | arr (elems : List JSValue)
  | obj (fields : List (String × JSValue))
deriving Repr

set_option maxRecDepth 4000

/-- `FileStorage.getDefaults` (src/storage.js:36-49): the literal defaults
object; keys not present in it fall through to `null`. -/
def getDefaults (key : String) : JSValue :=
  if key = "projects.system" then .arr []
  else if key = "projects.user" then .arr []
  else if key = "projects.allProjects" then .arr []
  else if key = "users.allUsers" then .arr []
  else if key = "users.userProjects" then .arr []
  else if key = "logs._activity_logs" then .arr []
  else if key = "logs.rate_limits" then .obj []
  else if key = "session.location" then
    .obj [("pending", .str "User interaction required")]
  else if key = "session.userDetails" then .obj []
  else .null

/-- The state of a `FileStorage` instance: the availability flag computed
at construction, and the underlying localStorage contents (physical key
to parsed value; `none` = key absent). -/
structure FileStorage where
  enabled : Bool
  store : String → Option JSValue

/-- `FileStorage.getItem` (src/storage.js:56-66): unavailable storage and
absent keys both yield `getDefaults key`; a present key yields its value. -/
def FileStorage.getItem (fs : FileStorage) (key : String) : JSValue :=
  if fs.enabled = false then getDefaults key
  else
    match fs.store ("breakthroughIdeas_" ++ key) with
    | some v => v
    | none => getDefaults key

/-- `FileStorage.setItem` (src/storage.js:73-83): no-op returning `false`
when storage is unavailable, otherwise writes and returns `true`. -/
def FileStorage.setItem (fs : FileStorage) (key : String) (v : JSValue) :
    Bool × FileStorage :=
  if fs.enabled = false then (false, fs)
  else
    (true,
      { fs with
        store := fun k =>
          if k = "breakthroughIdeas_" ++ key then some v else fs.store k })

/-- JavaScript falsiness on `JSValue`, as used by the `x || []` pattern at
the storage call sites. -/
def JSValue.falsy : JSValue → Bool
  | .null => true
  | .bool b => !b
  | .num n => n == 0
  | .str s => s == ""
  | _ => false

/-- The JavaScript `a || b` operator on stored values. -/
def jsOr (a b : JSValue) : JSValue := if a.falsy then b else a

/-- A storage state with localStorage available and nothing stored:
fresh browser, no comments saved for any project. -/
def freshStorage : FileStorage := { enabled := true, store := fun _ => none }

/-- No key of the comments namespace occurs in the defaults table, so
`getDefaults` falls through to `null` on every `comments.<pid>` key. -/
lemma getDefaults_comments (pid : String) :
    getDefaults ("comments." ++ pid) = JSValue.null := by
  obtain ⟨l⟩ := pid
  simp only [getDefaults]
  repeat rw [if_neg]
  all_goals intro h
  all_goals replace h := congrArg String.data h
  all_goals simp [String.data_append] at h

/-- C1, counterexample: on a fresh store with nothing saved,
`getItem "comments.999"` returns `null`, which is not the empty list the
claim promises for the comments namespace. -/
theorem c1_counterexample :
    freshStorage.getItem "comments.999" = JSValue.null ∧
    JSValue.null ≠ JSValue.arr [] :=
  ⟨rfl, fun h => JSValue.noConfusion h⟩

/-- C1 (amended): for every key of the form `comments.<projectId>` with no
stored value, `FileStorage.getItem` returns `null` (the catch-all default:
the comments namespace has no entry in the defaults table) and never
throws; the `x || []` coercion applied at every call site then yields the
empty list. -/
theorem c1_getItem_absent_comments_key (fs : FileStorage) (pid : String)
    (h : fs.store ("breakthroughIdeas_" ++ ("comments." ++ pid)) = none) :
    fs.getItem ("comments." ++ pid) = JSValue.null ∧
    jsOr (fs.getItem ("comments." ++ pid)) (JSValue.arr []) = JSValue.arr [] := by
  have hd := getDefaults_comments pid
  cases he : fs.enabled <;>
    simp [FileStorage.getItem, he, h, hd, jsOr, JSValue.falsy]

/-- C1 witness: the amended theorem applied to the fresh store and
project id 999. -/
theorem c1_witness :
    freshStorage.getItem ("comments." ++ "999") = JSValue.null ∧
    jsOr (freshStorage.getItem ("comments." ++ "999")) (JSValue.arr []) =
      JSValue.arr [] :=
  c1_getItem_absent_comments_key freshStorage "999" rfl

/-- An `ActivityLogEntry` as built by `UserSession.logActivity`. -/
structure LogEntry where
  timestamp : String
  userStamp : String
  nickname : Option String
  action : String
  data : JSValue
  sessionData : JSValue

/-- The list update performed by `UserSession.logActivity`
(user-session module, part_005:502-521): push the new entry, then
`splice(0, length - 1000)` whenever the list exceeds 1000 entries. -/
def logActivityUpdate {α : Type} (logs : List α) (e : α) : List α :=
  let logs2 := logs ++ [e]
  if logs2.length > 1000 then logs2.drop (logs2.length - 1000) else logs2

/-- `UserSession.logActivity`: builds the entry from the current identity
and session snapshot and applies the bounded append to the stored list. -/
def UserSession.logActivity (stamp : String) (nickname : Option String)
    (sessionData : JSValue) (logs : List LogEntry)
    (ts action : String) (data : JSValue) : List LogEntry :=
  logActivityUpdate logs
    { timestamp := ts, userStamp := stamp, nickname := nickname,
      action := action, data := data, sessionData := sessionData }

lemma drop_idx_congr {α : Type} (l : List α) {a b : Nat} (h : a = b) :
    l.drop a = l.drop b := by rw [h]

lemma logActivityUpdate_eq {α : Type} (logs : List α) (e : α) :
    logActivityUpdate logs e = (logs ++ [e]).drop ((logs.length + 1) - 1000) := by
  simp only [logActivityUpdate, List.length_append, List.length_singleton]
  split
  · rfl
  · rw [Nat.sub_eq_zero_of_le (by omega), List.drop_zero]

/-- After at least one bounded append the stored list is exactly the most
recent `min 1000 (old + new)` elements of the full append history. -/
lemma foldl_logActivityUpdate {α : Type} :
    ∀ (es : List α), es ≠ [] → ∀ (logs : List α),
      es.foldl logActivityUpdate logs =
        (logs ++ es).drop ((logs.length + es.length) - 1000)
  | [], h, _ => absurd rfl h
  | [e], _, logs => by
      simpa using logActivityUpdate_eq logs e
  | e :: e' :: es, _, logs => by
      have IH := foldl_logActivityUpdate (e' :: es) (by simp)
        (logActivityUpdate logs e)
      rw [List.foldl_cons, IH, logActivityUpdate_eq logs e]
      have happ : (logs ++ [e]) ++ e' :: es = logs ++ e :: e' :: es := by simp
      rcases le_or_lt (logs.length + 1) 1000 with hle | hlt
      · rw [Nat.sub_eq_zero_of_le hle, List.drop_zero, happ]
        exact drop_idx_congr _ (by
          simp only [List.length_append, List.length_singleton,
            List.length_cons, List.length_nil]
          omega)
      · have hm : logs.length + 1 - 1000 ≤ (logs ++ [e]).length := by
          rw [List.length_append, List.length_singleton]
          omega
        rw [List.length_drop, ← List.drop_append_of_le_length hm,
          List.drop_drop, happ]
        exact drop_idx_congr _ (by
          simp only [List.length_append, List.length_singleton,
            List.length_cons, List.length_nil]
          omega)

/-- C2: starting from any stored `logs._activity_logs` list, any nonempty
sequence of `logActivity` appends leaves at most 1000 entries, and once at
least 1000 entries have been appended the stored list is exactly the most
recent 1000 appended entries in append order (oldest evicted first). -/
theorem c2_activity_log_cap {α : Type} (logs es : List α) (hne : es ≠ []) :
    (es.foldl logActivityUpdate logs).length ≤ 1000 ∧
    (1000 ≤ es.length →
      es.foldl logActivityUpdate logs = es.drop (es.length - 1000)) := by
  rw [foldl_logActivityUpdate es hne logs]
  constructor
  · rw [List.length_drop, List.length_append]
    omega
  · intro h1000
    have harith : logs.length + es.length - 1000 =
        logs.length + (es.length - 1000) := by
      omega
    rw [harith, ← List.drop_drop, List.drop_left]

/-- C2 witness: appending 1050 entries to an empty log leaves exactly the
most recent 1000 (the oldest 50 evicted). -/
theorem c2_witness :
    (List.replicate 1050 (0 : Nat) ≠ []) ∧
    ((List.replicate 1050 (0 : Nat)).foldl logActivityUpdate []).length ≤ 1000 ∧
    (List.replicate 1050 (0 : Nat)).foldl logActivityUpdate [] =
      (List.replicate 1050 (0 : Nat)).drop 50 := by
  have hlen : (List.replicate 1050 (0 : Nat)).length = 1050 :=
    List.length_replicate 1050 0
  have hne : List.replicate 1050 (0 : Nat) ≠ [] := by
    intro h
    rw [h] at hlen
    exact absurd hlen (by norm_num)
  refine ⟨hne, (c2_activity_log_cap [] _ hne).1, ?_⟩
  have h := (c2_activity_log_cap [] (List.replicate 1050 (0 : Nat)) hne).2
    (by rw [hlen]; omega)
  rw [hlen] at h
  norm_num at h
  exact h

/-- `sanitizeInput`'s single-character replacement (src/utils.js:313-325):
the regex `/[<>"'&]/g` maps each special character to its HTML entity via
the literal `entityMap`. -/
def escChar (c : Char) : List Char :=
  if c = '<' then "&lt;".data
  else if c = '>' then "&gt;".data
  else if c = '"' then "&quot;".data
  else if c = '\'' then "&#39;".data
  else if c = '&' then "&amp;".data
  else [c]

/-- `sanitizeInput` (src/utils.js:313-325): a single pass over the string
replacing each of the five special characters by its HTML entity. -/
def sanitizeInput (s : String) : String := ⟨s.data.flatMap escChar⟩

/-- JavaScript whitespace for the purposes of `String.prototype.trim`
(the characters that occur in this codebase's inputs). -/
def jsWhitespace (c : Char) : Bool :=
  c == ' ' || c == '\t' || c == '\n' || c == '\r'

/-- `input.trim()`: strip whitespace from both ends. -/
def jsTrim (s : String) : String :=
  ⟨((s.data.dropWhile jsWhitespace).reverse.dropWhile jsWhitespace).reverse⟩

/-- `APP_CONFIG.RATE_LIMITING.COMMENT_COOLDOWN` (src/config.js:20). -/
def COMMENT_COOLDOWN : Int := 3000
/-- `APP_CONFIG.RATE_LIMITING.RATING_COOLDOWN` (src/config.js:21). -/
def RATING_COOLDOWN : Int := 1000
/-- `APP_CONFIG.RATE_LIMITING.PROJECT_COOLDOWN` (src/config.js:22). -/
def PROJECT_COOLDOWN : Int := 5000
/-- `APP_CONFIG.VALIDATION.MAX_COMMENT_LENGTH` (src/config.js:17). -/
def MAX_COMMENT_LENGTH : Nat := 500

/-- A record of the `users.allUsers` collection, as written by
`UserSession.saveUserDetails`. -/
structure UserRecord where
  stamp : String
  nickname : Option String
  details : List (String × String)
  lastActive : String
deriving DecidableEq, Repr

/-- The parts of a `UserSession` instance and its backing storage that the
identity operations read and write.  `rawAllUsers` is the value parsed
from the *unprefixed* localStorage key `'allUsers'` (read by
`ensureUniqueNickname`); `allUsers` is the value of the `FileStorage` key
`'users.allUsers'` (read and written by `saveUserDetails`).  These are two
distinct physical localStorage keys. -/
structure SessionState where
  stamp : String
  nickname : Option String
  userDetails : List (String × String)
  rawAllUsers : List UserRecord
  userNicknameLS : Option String
  allUsers : List UserRecord
  userDetailsStored : List (String × String)
  logs : List LogEntry
  sessionData : JSValue

/-- `UserSession.ensureUniqueNickname` (part_005:456-465): trims the
desired nickname and consults `JSON.parse(localStorage.getItem('allUsers')
|| '[]')` for a *different* user carrying the same nickname; on conflict
the own stamp is appended after `#`. -/
def ensureUniqueNickname (st : SessionState) (nickname : String) : String :=
  let baseNick := jsTrim nickname
  if st.rawAllUsers.any (fun u => u.nickname == some baseNick && u.stamp != st.stamp) then
    baseNick ++ "#" ++ st.stamp
  else baseNick

/-- `UserSession.setNickname` (part_005:442-449): stores the uniquified
nickname on the session object and in the `'userNickname'` localStorage
key, and returns it.  (The DOM updates of the source are presentation
effects outside the data model.) -/
def setNickname (st : SessionState) (nickname : String) : String × SessionState :=
  let uniqueNick := ensureUniqueNickname st nickname
  (uniqueNick,
    { st with nickname := some uniqueNick, userNicknameLS := some uniqueNick })

/-- The JavaScript object spread `{ ...old, ...upd }` on flat string
records: keys of `old` keep their position with `upd`'s value winning;
keys only in `upd` are appended in `upd`'s order. -/
def mergeDetails (old upd : List (String × String)) : List (String × String) :=
  (old.map fun p =>
    match upd.lookup p.1 with
    | some v => (p.1, v)
    | none => p) ++
  upd.filter fun p => (old.lookup p.1).isNone

/-- `UserSession.saveUserDetails` (part_005:471-495): merges the details,
persists them under `users.details`, upserts the caller's record in
`users.allUsers` (update in place at the first index with the caller's
stamp, else push) with a fresh `lastActive`, and logs
`user_details_saved`. -/
def saveUserDetails (st : SessionState) (details : List (String × String))
    (nowIso : String) : SessionState :=
  let userDetails2 := mergeDetails st.userDetails details
  let userData : UserRecord :=
    { stamp := st.stamp, nickname := st.nickname,
      details := userDetails2, lastActive := nowIso }
  let allUsers2 :=
    match st.allUsers.findIdx? (fun u => u.stamp == st.stamp) with
    | some i => st.allUsers.set i userData
    | none => st.allUsers ++ [userData]
  { st with
    userDetails := userDetails2,
    userDetailsStored := userDetails2,
    allUsers := allUsers2,
    logs := UserSession.logActivity st.stamp st.nickname st.sessionData
      st.logs nowIso "user_details_saved" (.obj []) }

/-- A stored comment object, as appended by `addComment`. -/
structure Comment where
  author : String
  stamp : String
  text : String
  timestamp : String
deriving DecidableEq, Repr

/-- The state read and written by the `addComment` flow: the session, the
`comments.<projectId>` list of the target project, and the in-memory
`rateLimitTracker.lastCommentTime`. -/
structure AddCommentState where
  session : SessionState
  comments : List Comment
  lastCommentTime : Int

/-- Outcome of an `addComment` call. -/
inductive AddCommentOutcome where
  | emptyText
  | tooLong
  | rateLimited (remainingMs : Int)
  | added (c : Comment)
deriving Repr

/-- `addComment` (comment-functions module, part_005:14-89), as a state
transition.  `now` is the `Date.now()` read for the rate-limit check,
`now2` the later `Date.now()` stored into the tracker on success, `tsIso`
the ISO timestamp of the new comment.  The source sanitizes and trims the
textarea and nickname inputs, validates (non-empty, length cap), applies
the comment cooldown, optionally updates the session nickname, appends the
comment to `comments.<projectId>`, logs `comment_added`, and only then
refreshes the tracker.  Every rejected branch returns before any write. -/
def addComment (st : AddCommentState) (projectId : String)
    (now now2 : Int) (rawText rawNick : String) (tsIso : String) :
    AddCommentOutcome × AddCommentState :=
  let commentText := sanitizeInput (jsTrim rawText)
  let nickname := sanitizeInput (jsTrim rawNick)
  if commentText = "" then (.emptyText, st)
  else if commentText.length > MAX_COMMENT_LENGTH then (.tooLong, st)
  else if now - st.lastCommentTime < COMMENT_COOLDOWN then
    (.rateLimited (COMMENT_COOLDOWN - (now - st.lastCommentTime)), st)
  else
    let session1 :=
      if nickname ≠ "" ∧ some nickname ≠ st.session.nickname then
        (setNickname st.session nickname).2
      else st.session
    let c : Comment :=
      { author := nickname, stamp := session1.stamp,
        text := commentText, timestamp := tsIso }
    let session2 :=
      { session1 with
        logs := UserSession.logActivity session1.stamp session1.nickname
          session1.sessionData session1.logs tsIso "comment_added"
          (.obj [("projectId", .str projectId),
                 ("commentLength", .num commentText.length)]) }
    (.added c,
      { session := session2, comments := st.comments ++ [c],
        lastCommentTime := now2 })

/-- The state read and written by the `rateProject` flow. -/
structure RateProjectState where
  session : SessionState
  ratings : List Int
  lastRatingTime : Int

/-- Outcome of a `rateProject` call. -/
inductive RateOutcome where
  | rateLimited (remainingMs : Int)
  | rated
deriving Repr

/-- `rateProject` (src/rating-functions.js:11-47): applies the rating
cooldown against `rateLimitTracker.lastRatingTime`, then appends the raw
value to `ratings.<projectId>`, logs `project_rated` with the new total
count, and stores the entry-time `now` into the tracker. -/
def rateProject (st : RateProjectState) (projectId : String)
    (now : Int) (rating : Int) (tsIso : String) :
    RateOutcome × RateProjectState :=
  if now - st.lastRatingTime < RATING_COOLDOWN then
    (.rateLimited (RATING_COOLDOWN - (now - st.lastRatingTime)), st)
  else
    let ratings2 := st.ratings ++ [rating]
    let session2 :=
      { st.session with
        logs := UserSession.logActivity st.session.stamp st.session.nickname
          st.session.sessionData st.session.logs tsIso "project_rated"
          (.obj [("projectId", .str projectId), ("rating", .num rating),
                 ("totalRatings", .num ratings2.length)]) }
    (.rated,
      { session := session2, ratings := ratings2, lastRatingTime := now })

/-- A user-submitted project object, as built by the submission handler. -/
structure Project where
  id : Int
  title : String
  description : String
  tags : List String
  link : Option String
  author : String
  authorStamp : String
  timestamp : String
  type : String
deriving DecidableEq, Repr

/-- The state read and written by the project-submission flow. -/
structure SubmitProjectState where
  session : SessionState
  userProjects : List Project
  lastProjectTime : Int

/-- Outcome of a project submission. -/
inductive SubmitOutcome where
  | invalid
  | rateLimited (remainingMs : Int)
  | shared (p : Project)
deriving Repr

/-- The `userProjectForm` submit handler (src/main.js:126-232): validation
(external `validateProjectData`, modelled by the `validationOk` input),
then the project cooldown, then optional nickname update and
`saveUserDetails` (when an email was given), construction of the project
with `id = Date.now()` (the `idNow` input) and `type = "user"`, append to
`projects.userProjects`, `project_shared` log, and tracker update with the
entry-time `now`. -/
def submitProject (st : SubmitProjectState) (now idNow : Int)
    (validationOk : Bool) (title description link email nick : String)
    (tsIso : String) : SubmitOutcome × SubmitProjectState :=
  if validationOk = false then (.invalid, st)
  else if now - st.lastProjectTime < PROJECT_COOLDOWN then
    (.rateLimited (PROJECT_COOLDOWN - (now - st.lastProjectTime)), st)
  else
    let session1 :=
      if nick ≠ "" ∧ some nick ≠ st.session.nickname then
        (setNickname st.session nick).2
      else st.session
    let session2 :=
      if email ≠ "" then
        saveUserDetails session1 [("email", email), ("timestamp", tsIso)] tsIso
      else session1
    let p : Project :=
      { id := idNow, title := title, description := description,
        tags := ["user-submitted"],
        link := if link = "" then none else some link,
        author := session2.nickname.getD "Anonymous",
        authorStamp := session2.stamp, timestamp := tsIso, type := "user" }
    let session3 :=
      { session2 with
        logs := UserSession.logActivity session2.stamp session2.nickname
          session2.sessionData session2.logs tsIso "project_shared"
          (.obj [("projectId", .num p.id), ("title", .str p.title)]) }
    (.shared p,
      { session := session3, userProjects := st.userProjects ++ [p],
        lastProjectTime := now })

/-- C3: for each action class with its default cooldown (comment 3000ms,
rating 1000ms, project submission 5000ms), a mutation attempted strictly
less than the cooldown after the previous allowed action of that class is
rejected with a positive remaining wait and leaves the whole state
untouched (no storage write); once at least the cooldown has elapsed the
next attempt is allowed, performs the append, and updates the class's
last-action time. -/
theorem c3_cooldown_enforced
    (stc : AddCommentState) (str : RateProjectState) (stp : SubmitProjectState)
    (pidC pidR : String) (nowC now2C nowR nowP idP : Int)
    (rawText rawNick tsC tsR tsP : String) (rating : Int)
    (title description link email nick : String) :
    (sanitizeInput (jsTrim rawText) ≠ "" →
      (sanitizeInput (jsTrim rawText)).length ≤ MAX_COMMENT_LENGTH →
      ((nowC - stc.lastCommentTime < COMMENT_COOLDOWN →
          addComment stc pidC nowC now2C rawText rawNick tsC =
            (.rateLimited (COMMENT_COOLDOWN - (nowC - stc.lastCommentTime)),
              stc) ∧
          0 < COMMENT_COOLDOWN - (nowC - stc.lastCommentTime)) ∧
        (COMMENT_COOLDOWN ≤ nowC - stc.lastCommentTime →
          ∃ c st2, addComment stc pidC nowC now2C rawText rawNick tsC =
              (.added c, st2) ∧
            st2.lastCommentTime = now2C ∧
            st2.comments = stc.comments ++ [c]))) ∧
    ((nowR - str.lastRatingTime < RATING_COOLDOWN →
        rateProject str pidR nowR rating tsR =
          (.rateLimited (RATING_COOLDOWN - (nowR - str.lastRatingTime)),
            str) ∧
        0 < RATING_COOLDOWN - (nowR - str.lastRatingTime)) ∧
      (RATING_COOLDOWN ≤ nowR - str.lastRatingTime →
        ∃ st2, rateProject str pidR nowR rating tsR = (.rated, st2) ∧
          st2.lastRatingTime = nowR ∧
          st2.ratings = str.ratings ++ [rating])) ∧
    ((nowP - stp.lastProjectTime < PROJECT_COOLDOWN →
        submitProject stp nowP idP true title description link email nick tsP =
          (.rateLimited (PROJECT_COOLDOWN - (nowP - stp.lastProjectTime)),
            stp) ∧
        0 < PROJECT_COOLDOWN - (nowP - stp.lastProjectTime)) ∧
      (PROJECT_COOLDOWN ≤ nowP - stp.lastProjectTime →
        ∃ p st2,
          submitProject stp nowP idP true title description link email nick
              tsP = (.shared p, st2) ∧
            st2.lastProjectTime = nowP ∧
            st2.userProjects = stp.userProjects ++ [p])) := by
  refine ⟨fun h1 h2 => ⟨fun hlt => ?_, fun hle => ?_⟩,
          ⟨fun hlt => ?_, fun hle => ?_⟩, ⟨fun hlt => ?_, fun hle => ?_⟩⟩
  · simp only [addComment]
    rw [if_neg h1, if_neg (not_lt.mpr h2), if_pos hlt]
    exact ⟨rfl, sub_pos.mpr hlt⟩
  · simp only [addComment]
    rw [if_neg h1, if_neg (not_lt.mpr h2), if_neg (not_lt.mpr hle)]
    exact ⟨_, _, rfl, rfl, rfl⟩
  · simp only [rateProject]
    rw [if_pos hlt]
    exact ⟨rfl, sub_pos.mpr hlt⟩
  · simp only [rateProject]
    rw [if_neg (not_lt.mpr hle)]
    exact ⟨_, rfl, rfl, rfl⟩
  · simp only [submitProject]
    rw [if_neg (fun h => Bool.noConfusion h : ¬(true = false)), if_pos hlt]
    exact ⟨rfl, sub_pos.mpr hlt⟩
  · simp only [submitProject]
    rw [if_neg (fun h => Bool.noConfusion h : ¬(true = false)),
      if_neg (not_lt.mpr hle)]
    exact ⟨_, _, rfl, rfl, rfl⟩

/-- A concrete session: fresh browser, stamp `AAAAAA`, no nickname, all
collections empty. -/
def exSession : SessionState :=
  { stamp := "AAAAAA", nickname := none, userDetails := [],
    rawAllUsers := [], userNicknameLS := none, allUsers := [],
    userDetailsStored := [], logs := [], sessionData := .null }

/-- A concrete comment-flow state with all cooldown clocks at zero. -/
def exCommentState : AddCommentState := ⟨exSession, [], 0⟩

/-- A concrete rating-flow state with all cooldown clocks at zero. -/
def exRatingState : RateProjectState := ⟨exSession, [], 0⟩

/-- A concrete submission-flow state with all cooldown clocks at zero. -/
def exProjectState : SubmitProjectState := ⟨exSession, [], 0⟩

/-- C3 witness: each flow rejected within its cooldown on a concrete state
and allowed (with tracker update) once the cooldown has elapsed. -/
theorem c3_witness :
    ((addComment exCommentState "1" 1000 1001 "hi" "Bob" "t" =
        (.rateLimited (COMMENT_COOLDOWN - (1000 - exCommentState.lastCommentTime)),
          exCommentState) ∧
      0 < COMMENT_COOLDOWN - (1000 - exCommentState.lastCommentTime)) ∧
     (∃ c st2, addComment exCommentState "1" 3000 3001 "hi" "Bob" "t" =
        (.added c, st2) ∧ st2.lastCommentTime = 3001 ∧
        st2.comments = exCommentState.comments ++ [c])) ∧
    ((rateProject exRatingState "1" 500 5 "t" =
        (.rateLimited (RATING_COOLDOWN - (500 - exRatingState.lastRatingTime)),
          exRatingState) ∧
      0 < RATING_COOLDOWN - (500 - exRatingState.lastRatingTime)) ∧
     (∃ st2, rateProject exRatingState "1" 1000 5 "t" = (.rated, st2) ∧
        st2.lastRatingTime = 1000 ∧
        st2.ratings = exRatingState.ratings ++ [5])) ∧
    ((submitProject exProjectState 4000 4000 true "T" "D" "" "" "" "t" =
        (.rateLimited (PROJECT_COOLDOWN - (4000 - exProjectState.lastProjectTime)),
          exProjectState) ∧
      0 < PROJECT_COOLDOWN - (4000 - exProjectState.lastProjectTime)) ∧
     (∃ p st2, submitProject exProjectState 5000 5001 true "T" "D" "" "" "" "t" =
        (.shared p, st2) ∧ st2.lastProjectTime = 5000 ∧
        st2.userProjects = exProjectState.userProjects ++ [p])) := by
  have hA := c3_cooldown_enforced exCommentState exRatingState exProjectState
    "1" "1" 1000 1001 500 4000 4000 "hi" "Bob" "t" "t" "t" 5 "T" "D" "" "" ""
  have hB := c3_cooldown_enforced exCommentState exRatingState exProjectState
    "1" "1" 3000 3001 1000 5000 5001 "hi" "Bob" "t" "t" "t" 5 "T" "D" "" "" ""
  exact ⟨⟨(hA.1 (by decide) (by decide)).1 (by decide),
          (hB.1 (by decide) (by decide)).2 (by decide)⟩,
         ⟨hA.2.1.1 (by decide), hB.2.1.2 (by decide)⟩,
         ⟨hA.2.2.1 (by decide), hB.2.2.2 (by decide)⟩⟩

/-- The reachable session of a second identity attempting to claim
`"Alice"`: the first claimant's record is present in the `users.allUsers`
storage collection (as written by `saveUserDetails`), while the unprefixed
localStorage key `'allUsers'` — the one `ensureUniqueNickname` actually
reads — is absent, because no code path in the repository ever writes it. -/
def c4FailSession : SessionState :=
  { stamp := "S2", nickname := none, userDetails := [],
    rawAllUsers := [],
    userNicknameLS := none,
    allUsers := [{ stamp := "S1", nickname := some "Alice",
                   details := [], lastActive := "t0" }],
    userDetailsStored := [], logs := [], sessionData := .null }

/-- C4, evaluation at the failing input: although a *different* known user
(stamp `S1`) holds the nickname `"Alice"` in the `users.allUsers`
collection, the second caller (stamp `S2`) receives plain `"Alice"`, not
`"Alice#S2"`: `ensureUniqueNickname` consults the never-written raw
`'allUsers'` localStorage key instead of `users.allUsers`, so the
uniqueness check can never fire. -/
theorem c4_code_bug_eval :
    (∃ u ∈ c4FailSession.allUsers,
      u.nickname = some "Alice" ∧ u.stamp ≠ c4FailSession.stamp) ∧
    (setNickname c4FailSession "Alice").1 = "Alice" ∧
    (setNickname c4FailSession "Alice").1 ≠
      "Alice" ++ "#" ++ c4FailSession.stamp := by
  decide

/-- C5, counterexample: on a session whose stamp is absent from
`users.allUsers`, `setNickname` leaves `users.allUsers` untouched — it
inserts no record for the caller, contradicting the claimed upsert. -/
theorem c5_counterexample :
    (setNickname exSession "Alice").2.allUsers = exSession.allUsers ∧
    exSession.allUsers = [] ∧
    ¬ ∃ u ∈ (setNickname exSession "Alice").2.allUsers,
        u.stamp = exSession.stamp := by
  decide

/-- C5 (amended): `setNickname` never touches the `users.allUsers`
collection; the upsert the claim describes — insert when the caller's
stamp is absent, update in place when present, with a refreshed
`lastActive` — is performed by `saveUserDetails` instead. -/
theorem c5_allUsers_upsert (st : SessionState) (nick : String)
    (details : List (String × String)) (nowIso : String) :
    (setNickname st nick).2.allUsers = st.allUsers ∧
    ((∃ u ∈ (saveUserDetails st details nowIso).allUsers,
        u.stamp = st.stamp ∧ u.lastActive = nowIso ∧
        u.nickname = st.nickname ∧
        u.details = mergeDetails st.userDetails details) ∧
      (∀ u ∈ st.allUsers, u.stamp ≠ st.stamp →
        u ∈ (saveUserDetails st details nowIso).allUsers) ∧
      ((∀ u ∈ st.allUsers, u.stamp ≠ st.stamp) →
        (saveUserDetails st details nowIso).allUsers =
          st.allUsers ++
            [{ stamp := st.stamp, nickname := st.nickname,
               details := mergeDetails st.userDetails details,
               lastActive := nowIso }])) := by
  refine ⟨rfl, ?_⟩
  simp only [saveUserDetails]
  cases hidx : st.allUsers.findIdx? (fun u => u.stamp == st.stamp) with
  | none =>
    dsimp only
    have hnone := List.findIdx?_eq_none_iff.mp hidx
    refine ⟨⟨_, List.mem_append_right _ (List.mem_singleton_self _),
      rfl, rfl, rfl, rfl⟩, fun u hu _ => List.mem_append_left _ hu,
      fun _ => rfl⟩
  | some i =>
    dsimp only
    rw [List.findIdx?_eq_some_iff_getElem] at hidx
    obtain ⟨hilen, hpi, -⟩ := hidx
    have hstamp : (st.allUsers.get ⟨i, hilen⟩).stamp = st.stamp := by
      simpa using hpi
    refine ⟨⟨(⟨st.stamp, st.nickname, mergeDetails st.userDetails details,
      nowIso⟩ : UserRecord), ?_, rfl, rfl, rfl, rfl⟩, ?_, ?_⟩
    · have hil : i < (st.allUsers.set i
          (⟨st.stamp, st.nickname, mergeDetails st.userDetails details,
            nowIso⟩ : UserRecord)).length := by simpa using hilen
      have hm := List.getElem_mem hil
      rwa [List.getElem_set_self] at hm
    · intro u hu hne
      obtain ⟨j, hj, hju⟩ := List.mem_iff_getElem.mp hu
      have hji : i ≠ j := by
        intro he
        subst he
        exact hne (hju ▸ hstamp)
      have hjl : j < (st.allUsers.set i
          (⟨st.stamp, st.nickname, mergeDetails st.userDetails details,
            nowIso⟩ : UserRecord)).length := by simpa using hj
      have hm := List.getElem_mem hjl
      rwa [List.getElem_set_ne hji, hju] at hm
    · intro hall
      exact absurd hstamp (hall _ (List.getElem_mem hilen))

/-- C5 witness: the amended theorem on a concrete fresh session — the
nickname call leaves `users.allUsers` empty, and a `saveUserDetails` call
inserts the caller's record with the fresh `lastActive`. -/
theorem c5_witness :
    (setNickname exSession "Al").2.allUsers = exSession.allUsers ∧
    (∃ u ∈ (saveUserDetails exSession [("email", "e")] "t1").allUsers,
        u.stamp = exSession.stamp ∧ u.lastActive = "t1" ∧
        u.nickname = exSession.nickname ∧
        u.details = mergeDetails exSession.userDetails [("email", "e")]) ∧
    (saveUserDetails exSession [("email", "e")] "t1").allUsers =
      exSession.allUsers ++
        [{ stamp := exSession.stamp, nickname := exSession.nickname,
           details := mergeDetails exSession.userDetails [("email", "e")],
           lastActive := "t1" }] :=
  ⟨(c5_allUsers_upsert exSession "Al" [("email", "e")] "t1").1,
   (c5_allUsers_upsert exSession "Al" [("email", "e")] "t1").2.1,
   (c5_allUsers_upsert exSession "Al" [("email", "e")] "t1").2.2.2
     (by decide)⟩

/-- JavaScript `ToInt32`: the coercion applied by `<<` and `&`. -/
def jsToInt32 (n : Int) : Int := (n + 2 ^ 31) % 2 ^ 32 - 2 ^ 31

/-- One loop iteration of `UserSession.simpleHash` (part_005:280-288):
`hash = ((hash << 5) - hash) + char; hash = hash & hash` with JavaScript
32-bit semantics (`hash << 5` truncates to Int32, the following `&`
truncates the sum back to Int32). -/
def simpleHashStep (h : Int) (c : Nat) : Int :=
  jsToInt32 (jsToInt32 (h * 32) - h + c)

/-- `UserSession.simpleHash`: fold the step over the character codes,
starting from 0. -/
def simpleHash (s : String) : Int :=
  s.data.foldl (fun h c => simpleHashStep h c.toNat) 0

/-- A base-36 digit as produced by JavaScript `Number.toString(36)`:
`0`-`9` then lowercase `a`-`z`. -/
def digit36 (d : Nat) : Char :=
  if d < 10 then Char.ofNat (48 + d) else Char.ofNat (87 + d)

/-- Base-36 digit list of `n`, most significant first.  The first
argument is structural fuel; `n + 1` steps always suffice since the
value shrinks strictly at every recursive call. -/
def toBase36Aux : Nat → Nat → List Char
  | 0, _ => []
  | fuel + 1, n =>
    if n < 36 then [digit36 n]
    else toBase36Aux fuel (n / 36) ++ [digit36 (n % 36)]

/-- JavaScript `n.toString(36)` for a natural number. -/
def toBase36 (n : Nat) : String := ⟨toBase36Aux (n + 1) n⟩

/-- The stamp computed on a cache miss (part_005:267-269):
`Math.abs(hash).toString(36).substring(0, 6).toUpperCase()`.  There is no
padding: when the hash is small the result is shorter than 6 characters. -/
def computeStamp (browserData : String) : String :=
  ⟨((toBase36 (simpleHash browserData).natAbs).data.take 6).map Char.toUpper⟩

/-- `navigator.userAgent + navigator.language + screen.width +
screen.height`: JavaScript string concatenation coerces the numbers to
decimal strings. -/
def mkBrowserData (userAgent language : String) (width height : Nat) : String :=
  userAgent ++ language ++ toString width ++ toString height

/-- `UserSession.generateUserStamp` (part_005:263-273): return the cached
`localStorage.userStamp` when present; otherwise compute the fingerprint
stamp, persist it, and return it.  The pair is (returned stamp, stored
stamp after the call). -/
def generateUserStamp (stored : Option String) (browserData : String) :
    String × Option String :=
  match stored with
  | some s => (s, some s)
  | none => (computeStamp browserData, some (computeStamp browserData))

/-- Every character emitted by the base-36 encoder is a digit for some
value below 36. -/
lemma toBase36Aux_chars (fuel : Nat) :
    ∀ (n : Nat), ∀ c ∈ toBase36Aux fuel n, ∃ d, d < 36 ∧ c = digit36 d := by
  induction fuel with
  | zero => intro n c hc; simp [toBase36Aux] at hc
  | succ fuel ih =>
    intro n c hc
    rw [toBase36Aux] at hc
    by_cases h36 : n < 36
    · rw [if_pos h36, List.mem_singleton] at hc
      exact ⟨n, h36, hc⟩
    · rw [if_neg h36, List.mem_append] at hc
      rcases hc with h1 | h2
      · exact ih _ c h1
      · rw [List.mem_singleton] at h2
        exact ⟨n % 36, Nat.mod_lt _ (by omega), h2⟩

/-- Uppercasing any base-36 digit lands in `0`-`9` or `A`-`Z`. -/
lemma digit36_toUpper_ok :
    ∀ d, d < 36 →
      (('0' ≤ (digit36 d).toUpper ∧ (digit36 d).toUpper ≤ '9') ∨
       ('A' ≤ (digit36 d).toUpper ∧ (digit36 d).toUpper ≤ 'Z')) := by
  decide

/-- C6, counterexample: for the fingerprint
(userAgent = "", language = "", width = 0, height = 0) the computed
stamp is `"16O"` — only 3 characters, not the exactly-6 the claim states
(`toString(36).substring(0,6)` truncates but never pads). -/
theorem c6_counterexample :
    (generateUserStamp none (mkBrowserData "" "" 0 0)).1 = "16O" ∧
    ((generateUserStamp none (mkBrowserData "" "" 0 0)).1).length ≠ 6 := by
  decide

/-- C6 (amended): stamp creation is deterministic and stable — a fresh
call computes `computeStamp` of the fingerprint and caches it, any later
call returns the cached value unchanged (also across a reload with intact
storage), and the result consists of at most 6 characters, each an
uppercase base-36 digit (`0`-`9` or `A`-`Z`); it is shorter than 6 when
the fingerprint hash is small, as there is no padding. -/
theorem c6_stamp_deterministic (ua lang : String) (w h : Nat) (s : String) :
    (generateUserStamp none (mkBrowserData ua lang w h)).1 =
      computeStamp (mkBrowserData ua lang w h) ∧
    generateUserStamp (some s) (mkBrowserData ua lang w h) = (s, some s) ∧
    (generateUserStamp
        ((generateUserStamp none (mkBrowserData ua lang w h)).2)
        (mkBrowserData ua lang w h)).1 =
      (generateUserStamp none (mkBrowserData ua lang w h)).1 ∧
    (computeStamp (mkBrowserData ua lang w h)).length ≤ 6 ∧
    (∀ c ∈ (computeStamp (mkBrowserData ua lang w h)).data,
      (('0' ≤ c ∧ c ≤ '9') ∨ ('A' ≤ c ∧ c ≤ 'Z'))) := by
  refine ⟨rfl, rfl, rfl, ?_, ?_⟩
  · show (((toBase36 _).data.take 6).map Char.toUpper).length ≤ 6
    rw [List.length_map, List.length_take]
    exact Nat.min_le_left _ _
  · intro c hc
    rw [show (computeStamp (mkBrowserData ua lang w h)).data =
      ((toBase36 (simpleHash (mkBrowserData ua lang w h)).natAbs).data.take
        6).map Char.toUpper from rfl, List.mem_map] at hc
    obtain ⟨c', hc', rfl⟩ := hc
    have hc'' := List.mem_of_mem_take hc'
    obtain ⟨d, hd, rfl⟩ := toBase36Aux_chars _ _ c' hc''
    exact digit36_toUpper_ok d hd

/-- C6 witness: the amended theorem at the concrete fingerprint
(`"Mozilla"`, `"en"`, 1920, 1080), whose stamp is `"6IAH1M"`; the charset
conjunct is instantiated at that stamp's first character. -/
theorem c6_witness :
    (generateUserStamp none (mkBrowserData "Mozilla" "en" 1920 1080)).1 =
      computeStamp (mkBrowserData "Mozilla" "en" 1920 1080) ∧
    generateUserStamp (some "6IAH1M") (mkBrowserData "Mozilla" "en" 1920 1080)
      = ("6IAH1M", some "6IAH1M") ∧
    (computeStamp (mkBrowserData "Mozilla" "en" 1920 1080)).length ≤ 6 ∧
    (('0' ≤ '6' ∧ '6' ≤ '9') ∨ ('A' ≤ '6' ∧ '6' ≤ 'Z')) := by
  have h := c6_stamp_deterministic "Mozilla" "en" 1920 1080 "6IAH1M"
  exact ⟨h.1, h.2.1, h.2.2.2.1,
    h.2.2.2.2 '6' (by decide)⟩

/-- A built-in example project (project-functions module, part_000:7-52),
restricted to the fields the seeding map reads (`rating`, `comments`,
`forks` are dropped by `populateExampleProjects` and never consumed by the
core). -/
structure ExampleProject where
  id : Int
  title : String
  description : String
  host : String
  url : String
  category : String
deriving DecidableEq, Repr

/-- The literal `projects` array of the source. -/
def builtinProjects : List ExampleProject :=
  [{ id := 1, title := "AI-Powered Code Generator",
     description := "Revolutionary tool that generates production-ready code from natural language descriptions.",
     host := "GitHub", url := "https://github.com/shekhrd/ai-code-gen",
     category := "AI/ML" },
   { id := 2, title := "Quantum Visualization Engine",
     description := "Interactive 3D visualization of quantum mechanics concepts for education and research.",
     host := "InfinityFree", url := "https://quantum-viz.infinityfree.net",
     category := "Visualization" },
   { id := 3, title := "Blockchain Social Network",
     description := "Decentralized social platform built on blockchain technology with privacy-first approach.",
     host := "IndieCloud", url := "https://social.indiecloud.co/shekhrd",
     category := "Blockchain" },
   { id := 4, title := "Neural Network Playground",
     description := "Interactive environment for experimenting with neural network architectures in real-time.",
     host := "GitHub", url := "https://github.com/shekhrd/neural-playground",
     category := "AI/ML" }]

/-- A seeded system project in storage format. -/
structure StoredProject where
  id : Int
  title : String
  description : String
  host : String
  url : String
  category : String
  timestamp : String
  author : String
  stamp : String
deriving DecidableEq, Repr

/-- The per-project conversion inside `populateExampleProjects`
(part_000:102-112). -/
def toStorageFormat (p : ExampleProject) (nowIso : String) : StoredProject :=
  { id := p.id, title := p.title, description := p.description,
    host := p.host, url := p.url, category := p.category,
    timestamp := nowIso, author := "System", stamp := "SYSTEM" }

/-- The state touched by `populateExampleProjects`: the
`projects.allProjects` and `projects.userProjects` collections and the
`logs._activity_logs` list (whose prior entries may have any shape, hence
`JSValue`). -/
structure ProjectSeedState where
  allProjects : List StoredProject
  userProjects : List StoredProject
  logs : List JSValue

/-- The log entry written by the seeding path (part_000:119-123). -/
def seedLogEntry (nowIso : String) (count : Nat) : JSValue :=
  .obj [("action", .str "system_populate_examples"),
        ("timestamp", .str nowIso),
        ("details",
          .str ("Populated " ++ toString count ++
            " example projects to storage"))]

/-- `populateExampleProjects` (part_000:95-128): when
`projects.allProjects` is empty it is populated from the built-in list,
and `logs._activity_logs` is *overwritten* with a single-element array
holding the `system_populate_examples` entry (`setItem` with a fresh
array — not an append); otherwise nothing happens.  The
`projects.userProjects` collection is never consulted. -/
def populateExampleProjects (st : ProjectSeedState) (nowIso : String) :
    ProjectSeedState :=
  if st.allProjects.length = 0 then
    let exampleProjects := builtinProjects.map (toStorageFormat · nowIso)
    { st with
      allProjects := exampleProjects,
      logs := [seedLogEntry nowIso exampleProjects.length] }
  else st

/-- A prior activity-log entry, as left by `logActivity` calls before the
first load completes (shape irrelevant to the seeding path). -/
def c7PriorEntry : JSValue := .obj [("action", .str "session_initialized")]

/-- A first-load state: empty `projects.allProjects`, one prior log entry. -/
def c7State : ProjectSeedState :=
  { allProjects := [], userProjects := [], logs := [c7PriorEntry] }

/-- C7, counterexample: seeding on a state whose activity log already
holds an entry *overwrites* the log with the single
`system_populate_examples` entry — the prior entry is discarded, not
appended to. -/
theorem c7_counterexample :
    (populateExampleProjects c7State "t1").logs = [seedLogEntry "t1" 4] ∧
    c7PriorEntry ∉ (populateExampleProjects c7State "t1").logs := by
  have hne : c7PriorEntry ≠ seedLogEntry "t1" 4 := by
    simp [c7PriorEntry, seedLogEntry]
  refine ⟨rfl, ?_⟩
  rw [show (populateExampleProjects c7State "t1").logs =
    [seedLogEntry "t1" 4] from rfl, List.mem_singleton]
  exact hne

/-- C7 (amended): seeding happens exactly once — when
`projects.allProjects` is observed empty it is populated from the fixed
built-in list and the activity log is *replaced* by the single
`system_populate_examples` entry (prior entries are discarded); when it is
non-empty the call is a no-op, so a second load never re-seeds, regardless
of the (never consulted) `projects.userProjects` collection. -/
theorem c7_seed_once (st : ProjectSeedState) (now now2 : String) :
    (st.allProjects ≠ [] → populateExampleProjects st now = st) ∧
    (st.allProjects = [] →
      (populateExampleProjects st now).allProjects =
        builtinProjects.map (toStorageFormat · now) ∧
      (populateExampleProjects st now).logs = [seedLogEntry now 4] ∧
      (populateExampleProjects st now).userProjects = st.userProjects) ∧
    populateExampleProjects (populateExampleProjects st now) now2 =
      populateExampleProjects st now := by
  refine ⟨fun hne => ?_, fun he => ?_, ?_⟩
  · rw [populateExampleProjects,
      if_neg (by simpa [List.length_eq_zero] using hne)]
  · rw [populateExampleProjects, if_pos (by simp [he])]
    exact ⟨rfl, rfl, rfl⟩
  · by_cases he : st.allProjects = []
    · have h1 : populateExampleProjects st now =
          { st with
            allProjects := builtinProjects.map (toStorageFormat · now),
            logs := [seedLogEntry now 4] } := by
        rw [populateExampleProjects, if_pos (by simp [he])]
        rfl
      rw [h1, populateExampleProjects, if_neg (by simp [builtinProjects])]
    · have h1 : populateExampleProjects st now = st := by
        rw [populateExampleProjects,
          if_neg (by simpa [List.length_eq_zero] using he)]
      rw [h1, populateExampleProjects,
        if_neg (by simpa [List.length_eq_zero] using he)]

/-- C7 witness: the amended theorem on the concrete first-load state —
the four examples are seeded, the log is replaced, and a second load does
not re-seed. -/
theorem c7_witness :
    (populateExampleProjects c7State "t1").allProjects =
      builtinProjects.map (toStorageFormat · "t1") ∧
    (populateExampleProjects c7State "t1").logs = [seedLogEntry "t1" 4] ∧
    populateExampleProjects (populateExampleProjects c7State "t1") "t2" =
      populateExampleProjects c7State "t1" :=
  ⟨((c7_seed_once c7State "t1" "t2").2.1 rfl).1,
   ((c7_seed_once c7State "t1" "t2").2.1 rfl).2.1,
   (c7_seed_once c7State "t1" "t2").2.2⟩

/-- `(sum / len).toFixed(1)` on the exact rational mean `sum / len`
(`len > 0`): the rounded tenths value is
`⌊10 * (sum / len) + 1 / 2⌋ = ⌊(20 * sum + len) / (2 * len)⌋` (round half
up, which is what `toFixed` does for the nonnegative values stored here),
rendered as `<units>.<tenth>`.  The source computes the mean in binary
floating point; on the small integer star ratings this code stores, the
exact-rational model agrees on every case exercised here. -/
def jsToFixed1 (sum : Int) (len : Nat) : String :=
  let t : Int := (20 * sum + len).fdiv (2 * len)
  toString (t / 10) ++ "." ++ toString (t % 10)

/-- `getAverageRating` (src/rating-functions.js:54-61): the sentinel
`'N/A'` when the ratings value is null/missing or the list is empty,
otherwise `reduce((a, b) => a + b, 0) / length` rendered by `toFixed(1)`. -/
def getAverageRating (ratings : Option (List Int)) : String :=
  match ratings with
  | none => "N/A"
  | some rs =>
    if rs.length = 0 then "N/A"
    else jsToFixed1 (rs.foldl (· + ·) 0) rs.length

lemma jsToFixed1_ne_NA (sum : Int) (len : Nat) :
    jsToFixed1 sum len ≠ "N/A" := by
  intro h
  have hdot : '.' ∈ (jsToFixed1 sum len).data := by
    simp only [jsToFixed1, String.data_append]
    refine List.mem_append_left _ (List.mem_append_right _ ?_)
    exact List.mem_singleton_self '.'
  rw [h] at hdot
  simp at hdot

/-- C8: `getAverageRating` renders the arithmetic mean to one decimal
place — `[5,4,3]` yields `"4.0"`, `[5]` yields `"5.0"` — and returns the
sentinel `"N/A"` exactly when the ratings list is missing or empty. -/
theorem c8_average_rating :
    getAverageRating (some [5, 4, 3]) = "4.0" ∧
    getAverageRating (some [5]) = "5.0" ∧
    getAverageRating (some []) = "N/A" ∧
    getAverageRating none = "N/A" ∧
    (∀ rs, getAverageRating rs = "N/A" ↔ rs = none ∨ rs = some []) := by
  refine ⟨by decide, by decide, rfl, rfl, fun rs => ?_⟩
  match rs with
  | none => simp [getAverageRating]
  | some [] => simp [getAverageRating]
  | some (r :: rs) =>
    simp only [getAverageRating, List.length_cons, if_neg (Nat.succ_ne_zero _)]
    constructor
    · intro h
      exact absurd h (jsToFixed1_ne_NA _ _)
    · rintro (h | h) <;> simp at h

/-- A comment as consumed by the grouping engine.  `formatDate` renders a
timestamp's calendar date (`'short'` en-US format); that rendering is
injective per calendar day and `new Date(...)` re-parses it, so the model
carries the day index itself and renders it with `toString` where the
source interpolates the formatted date into the key string. -/
structure GComment where
  author : String
  stamp : String
  day : Nat
  text : String
deriving DecidableEq, Repr

/-- The bucket key `` `${date}-${comment.author}-${comment.stamp}` `` of
`groupCommentsByDateAndUser` (src/utils/date-formater.js:124-125): plain
string interpolation with `-` separators. -/
def gKey (c : GComment) : String :=
  toString c.day ++ "-" ++ c.author ++ "-" ++ c.stamp

/-- A display group: the formatted date, the author and stamp of the
group's first comment, and the collected comments. -/
structure CommentGroup where
  date : Nat
  author : String
  stamp : String
  comments : List GComment
deriving DecidableEq, Repr

/-- The key string a group's own fields spell. -/
def groupKeyOf (g : CommentGroup) : String :=
  toString g.date ++ "-" ++ g.author ++ "-" ++ g.stamp

/-- One `forEach` iteration of `groupCommentsByDateAndUser`
(src/utils/date-formater.js:123-137) on the bucket object, modelled as an
association list in insertion order (JavaScript objects preserve string-key
insertion order): push onto the existing bucket, else create the bucket at
the end with the comment's date/author/stamp. -/
def addToGroups : List (String × CommentGroup) → GComment →
    List (String × CommentGroup)
  | [], c => [(gKey c, ⟨c.day, c.author, c.stamp, [c]⟩)]
  | p :: gs, c =>
    if p.1 = gKey c then
      (p.1, { p.2 with comments := p.2.comments ++ [c] }) :: gs
    else p :: addToGroups gs c

/-- The bucket object after the full `forEach`. -/
def buildGroups (cs : List GComment) : List (String × CommentGroup) :=
  cs.foldl addToGroups []

/-- The ordering induced by the sort comparator
(src/utils/date-formater.js:139-144): date descending (the formatted date
re-parsed), ties broken by `localeCompare` on authors, modelled as the
lexicographic string order. -/
def groupLE (g1 g2 : CommentGroup) : Prop :=
  g2.date < g1.date ∨ (g1.date = g2.date ∧ g1.author ≤ g2.author)

instance : DecidableRel groupLE := fun g1 g2 => by
  unfold groupLE
  infer_instance

instance : IsTotal CommentGroup groupLE where
  total a b := by
    unfold groupLE
    rcases lt_trichotomy a.date b.date with h | h | h
    · exact .inr (.inl h)
    · rcases le_total a.author b.author with ha | ha
      · exact .inl (.inr ⟨h, ha⟩)
      · exact .inr (.inr ⟨h.symm, ha⟩)
    · exact .inl (.inl h)

instance : IsTrans CommentGroup groupLE where
  trans a b c hab hbc := by
    unfold groupLE at *
    rcases hab with h1 | ⟨h1, h1'⟩ <;> rcases hbc with h2 | ⟨h2, h2'⟩
    · exact .inl (h2.trans h1)
    · exact .inl (h2 ▸ h1)
    · exact .inl (h1 ▸ h2)
    · exact .inr ⟨h1.trans h2, h1'.trans h2'⟩

/-- `groupCommentsByDateAndUser` (src/utils/date-formater.js:120-145):
`Object.values` of the buckets in insertion order, then the stable
`Array.prototype.sort` with the comparator above (modelled by the stable
`insertionSort`, which computes the same list as any stable sort for this
total, transitive comparator order). -/
def groupCommentsByDateAndUser (cs : List GComment) : List CommentGroup :=
  List.insertionSort groupLE ((buildGroups cs).map Prod.snd)

/-- Invariant tying the bucket object to the prefix of comments already
processed. -/
def GroupsInv (processed : List GComment)
    (gs : List (String × CommentGroup)) : Prop :=
  (gs.map Prod.fst).Nodup ∧
  (∀ p ∈ gs, p.1 = groupKeyOf p.2) ∧
  (∀ p ∈ gs, p.2.comments = processed.filter (fun c => gKey c == p.1)) ∧
  (∀ c ∈ processed, ∃ p ∈ gs, p.1 = gKey c)

lemma addToGroups_of_not_mem (c : GComment) :
    ∀ gs : List (String × CommentGroup), (∀ q ∈ gs, q.1 ≠ gKey c) →
      addToGroups gs c = gs ++ [(gKey c, ⟨c.day, c.author, c.stamp, [c]⟩)]
  | [], _ => rfl
  | p :: gs, h => by
    rw [addToGroups, if_neg (h p (List.mem_cons_self _ _)),
      addToGroups_of_not_mem c gs (fun q hq => h q (List.mem_cons_of_mem _ hq)),
      List.cons_append]

lemma addToGroups_of_mem (c : GComment) :
    ∀ (gs1 : List (String × CommentGroup)) (g : CommentGroup)
      (gs2 : List (String × CommentGroup)), (∀ q ∈ gs1, q.1 ≠ gKey c) →
      addToGroups (gs1 ++ (gKey c, g) :: gs2) c =
        gs1 ++ (gKey c, { g with comments := g.comments ++ [c] }) :: gs2
  | [], g, gs2, _ => by
    rw [List.nil_append, addToGroups, if_pos rfl, List.nil_append]
  | p :: gs1, g, gs2, h => by
    rw [List.cons_append, addToGroups,
      if_neg (h p (List.mem_cons_self _ _)),
      addToGroups_of_mem c gs1 g gs2
        (fun q hq => h q (List.mem_cons_of_mem _ hq)),
      List.cons_append]

lemma addToGroups_inv (c : GComment) (processed : List GComment)
    (gs : List (String × CommentGroup)) (hinv : GroupsInv processed gs) :
    GroupsInv (processed ++ [c]) (addToGroups gs c) := by
  obtain ⟨hnd, hkey, hcom, hcov⟩ := hinv
  by_cases hex : ∃ p ∈ gs, p.1 = gKey c
  · obtain ⟨⟨k, g⟩, hp0, hp0k⟩ := hex
    simp only at hp0k
    subst hp0k
    obtain ⟨s, t, rfl⟩ := List.append_of_mem hp0
    have hnd' : (s.map Prod.fst).Nodup ∧
        gKey c ∉ s.map Prod.fst ∧ gKey c ∉ t.map Prod.fst := by
      rw [List.map_append, List.map_cons] at hnd
      obtain ⟨h1, h2, h3⟩ := List.nodup_append.mp hnd
      exact ⟨h1, fun hm => h3 hm (List.mem_cons_self _ _),
        (List.nodup_cons.mp h2).1⟩
    have hsfree : ∀ q ∈ s, q.1 ≠ gKey c := fun q hq hqk =>
      hnd'.2.1 (hqk ▸ List.mem_map_of_mem Prod.fst hq)
    rw [addToGroups_of_mem c s g t hsfree]
    have hgkey : gKey c = groupKeyOf g := hkey ⟨gKey c, g⟩ hp0
    refine ⟨?_, ?_, ?_, ?_⟩
    · simpa only [List.map_append, List.map_cons] using hnd
    · intro p hp
      rcases List.mem_append.mp hp with hps | hpc
      · exact hkey p (List.mem_append_left _ hps)
      · rcases List.mem_cons.mp hpc with rfl | hpt
        · exact hgkey
        · exact hkey p (List.mem_append_right _ (List.mem_cons_of_mem _ hpt))
    · intro p hp
      rw [List.filter_append]
      rcases List.mem_append.mp hp with hps | hpc
      · have hne : (gKey c == p.1) = false :=
          beq_eq_false_iff_ne.mpr fun he =>
            hsfree p hps he.symm
        rw [hcom p (List.mem_append_left _ hps)]
        simp [hne]
      · rcases List.mem_cons.mp hpc with rfl | hpt
        · have hc := hcom ⟨gKey c, g⟩ hp0
          simp only at hc ⊢
          rw [hc]
          simp
        · have hne : (gKey c == p.1) = false :=
            beq_eq_false_iff_ne.mpr fun he =>
              hnd'.2.2 (he ▸ List.mem_map_of_mem Prod.fst hpt)
          rw [hcom p (List.mem_append_right _ (List.mem_cons_of_mem _ hpt))]
        
          simp [hne]
    · intro c' hc'
      rcases List.mem_append.mp hc' with hold | hnew
      · obtain ⟨p, hp, hpk⟩ := hcov c' hold
        rcases List.mem_append.mp hp with hps | hpc
        · exact ⟨p, List.mem_append_left _ hps, hpk⟩
        · rcases List.mem_cons.mp hpc with rfl | hpt
          · exact ⟨_, List.mem_append_right _ (List.mem_cons_self _ _), hpk⟩
          · exact ⟨p,
              List.mem_append_right _ (List.mem_cons_of_mem _ hpt), hpk⟩
      · rw [List.mem_singleton.mp hnew]
        exact ⟨_, List.mem_append_right _ (List.mem_cons_self _ _), rfl⟩
  · push_neg at hex
    rw [addToGroups_of_not_mem c gs hex]
    have hfresh : gKey c ∉ gs.map Prod.fst := fun hm => by
      obtain ⟨p, hp, hpk⟩ := List.mem_map.mp hm
      exact hex p hp hpk
    refine ⟨?_, ?_, ?_, ?_⟩
    · rw [List.map_append, List.map_cons, List.map_nil]
      exact List.nodup_append.mpr ⟨hnd, List.nodup_singleton _,
        fun a ha hb => by
          simp only [List.mem_singleton] at hb
          exact hfresh (hb ▸ ha)⟩
    · intro p hp
      rcases List.mem_append.mp hp with hps | hpc
      · exact hkey p hps
      · rw [List.mem_singleton.mp hpc]
        rfl
    · intro p hp
      rw [List.filter_append]
      rcases List.mem_append.mp hp with hps | hpc
      · have hne : (gKey c == p.1) = false :=
          beq_eq_false_iff_ne.mpr fun he => hex p hps he.symm
        rw [hcom p hps]
        simp [hne]
      · rw [List.mem_singleton.mp hpc]
        have hnil : processed.filter (fun c' => gKey c' == gKey c) = [] := by
          rw [List.filter_eq_nil_iff]
          intro c' hc' hbeq
          obtain ⟨p', hp', hpk'⟩ := hcov c' hc'
          exact hex p' hp' (hpk'.trans (by simpa using hbeq))
        simp only
        rw [hnil]
        simp
    · intro c' hc'
      rcases List.mem_append.mp hc' with hold | hnew
      · obtain ⟨p, hp, hpk⟩ := hcov c' hold
        exact ⟨p, List.mem_append_left _ hp, hpk⟩
      · rw [List.mem_singleton.mp hnew]
        exact ⟨_, List.mem_append_right _ (List.mem_singleton_self _), rfl⟩

lemma buildGroups_inv :
    ∀ (cs processed : List GComment) (gs : List (String × CommentGroup)),
      GroupsInv processed gs →
      GroupsInv (processed ++ cs) (cs.foldl addToGroups gs)
  | [], processed, gs, h => by simpa using h
  | c :: cs, processed, gs, h => by
    have h2 := buildGroups_inv cs (processed ++ [c]) (addToGroups gs c)
      (addToGroups_inv c processed gs h)
    simpa using h2

/-- C9 (amended): `groupCommentsByDateAndUser` is pure; each output group
collects, in original order, exactly the input comments whose *string*
key `date-author-stamp` matches the group's (this coincides with grouping
by the tuple (date, author, stamp) whenever the key strings are
unambiguous, but not in general); and the groups are sorted
most-recent-date-first with date ties broken by author ascending. -/
theorem c9_grouping (cs : List GComment) :
    (∀ g ∈ groupCommentsByDateAndUser cs,
      g.comments = cs.filter (fun c => gKey c == groupKeyOf g)) ∧
    (groupCommentsByDateAndUser cs).Pairwise groupLE := by
  constructor
  · intro g hg
    have hmem : g ∈ (buildGroups cs).map Prod.snd :=
      (List.mem_insertionSort groupLE).mp hg
    obtain ⟨p, hp, rfl⟩ := List.mem_map.mp hmem
    have hinv := buildGroups_inv cs [] []
      ⟨List.nodup_nil, by simp, by simp, by simp⟩
    rw [List.nil_append] at hinv
    obtain ⟨-, hkey, hcom, -⟩ := hinv
    rw [← hkey p hp]
    exact hcom p hp
  · exact List.sorted_insertionSort groupLE _

/-- C9, counterexample: grouping is by the *string* key, which is
ambiguous when an author name contains the separator: the comments
(author `"x-y"`, stamp `"z"`) and (author `"x"`, stamp `"y-z"`) on the
same day share the key `"0-x-y-z"` and land in one group, so the group's
comments are not the comments matching its (date, author, stamp) tuple,
refuting the claim as stated. -/
theorem c9_counterexample :
    ¬ (∀ g ∈ groupCommentsByDateAndUser
        [⟨"x-y", "z", 0, "t1"⟩, ⟨"x", "y-z", 0, "t2"⟩],
        g.comments = ([⟨"x-y", "z", 0, "t1"⟩, ⟨"x", "y-z", 0, "t2"⟩] :
          List GComment).filter
            (fun c => c.day == g.date && c.author == g.author &&
              c.stamp == g.stamp)) := by
  decide

/-- C9 witness: the amended theorem at a concrete list — the output is
sorted (newest date first) and the `"Bob"` group collects exactly Bob's
two comments in original order. -/
theorem c9_witness :
    (groupCommentsByDateAndUser
      [⟨"Bob", "S1", 5, "m1"⟩, ⟨"Ann", "S2", 6, "m2"⟩,
       ⟨"Bob", "S1", 5, "m3"⟩]).Pairwise groupLE ∧
    (⟨5, "Bob", "S1",
        [⟨"Bob", "S1", 5, "m1"⟩, ⟨"Bob", "S1", 5, "m3"⟩]⟩ :
      CommentGroup).comments =
      ([⟨"Bob", "S1", 5, "m1"⟩, ⟨"Ann", "S2", 6, "m2"⟩,
        ⟨"Bob", "S1", 5, "m3"⟩] : List GComment).filter
        (fun c => gKey c == groupKeyOf
          (⟨5, "Bob", "S1",
            [⟨"Bob", "S1", 5, "m1"⟩, ⟨"Bob", "S1", 5, "m3"⟩]⟩ :
            CommentGroup)) :=
  ⟨(c9_grouping _).2, (c9_grouping _).1 _ (by decide)⟩

/-- The five HTML entities substituted by `sanitizeInput`'s `entityMap`. -/
def htmlEntities : List (List Char) :=
  ["&lt;".data, "&gt;".data, "&quot;".data, "&#39;".data, "&amp;".data]

/-- The character class of the regex `/[<>"'&]/g`. -/
def specialChars : List Char := ['<', '>', '"', '\'', '&']

/-- A character list is sanitizer output: a concatenation of
non-special characters and whole HTML entities. -/
inductive SanitizedChunks : List Char → Prop where
  | nil : SanitizedChunks []
  | plain (c : Char) (rest : List Char) (h : c ∉ specialChars)
      (hr : SanitizedChunks rest) : SanitizedChunks (c :: rest)
  | ent (e : List Char) (rest : List Char) (h : e ∈ htmlEntities)
      (hr : SanitizedChunks rest) : SanitizedChunks (e ++ rest)

lemma sanitizeInput_chunks (s : String) :
    SanitizedChunks (sanitizeInput s).data := by
  show SanitizedChunks (s.data.flatMap escChar)
  induction s.data with
  | nil => exact .nil
  | cons c cs ih =>
    rw [List.flatMap_cons]
    by_cases h1 : c = '<'
    · subst h1
      exact .ent "&lt;".data _ (by decide) ih
    by_cases h2 : c = '>'
    · subst h2
      exact .ent "&gt;".data _ (by decide) ih
    by_cases h3 : c = '"'
    · subst h3
      exact .ent "&quot;".data _ (by decide) ih
    by_cases h4 : c = '\''
    · subst h4
      exact .ent "&#39;".data _ (by decide) ih
    by_cases h5 : c = '&'
    · subst h5
      exact .ent "&amp;".data _ (by decide) ih
    have he : escChar c = [c] := by
      rw [escChar, if_neg h1, if_neg h2, if_neg h3, if_neg h4, if_neg h5]
    rw [he, List.singleton_append]
    exact .plain c _ (by simp [specialChars, h1, h2, h3, h4, h5]) ih

/-- No entity contains `<`, `>`, `"` or `'` anywhere, and none contains
`&` after its first character. -/
lemma htmlEntities_tail_clean :
    ∀ e ∈ htmlEntities,
      (∀ ch ∈ e, ch ∉ ['<', '>', '"', '\'']) ∧
      '&' ∉ e.drop 1 ∧ e[0]? = some '&' := by
  decide

/-- Sanitizer output never contains a raw `<`, `>`, `"` or `'`. -/
lemma chunks_no_raw_specials {t : List Char} (h : SanitizedChunks t) :
    ∀ ch ∈ t, ch ∉ (['<', '>', '"', '\''] : List Char) := by
  have hsub : ∀ x : Char, x ∈ (['<', '>', '"', '\''] : List Char) →
      x ∈ specialChars := by decide
  induction h with
  | nil => simp
  | plain c rest hc hr ih =>
    intro ch hch
    rcases List.mem_cons.mp hch with rfl | hm
    · exact fun hmem => hc (hsub ch hmem)
    · exact ih ch hm
  | ent e rest he hr ih =>
    intro ch hch
    rcases List.mem_append.mp hch with hm | hm
    · exact (htmlEntities_tail_clean e he).1 ch hm
    · exact ih ch hm

/-- In sanitizer output, every `&` is the first character of one of the
five HTML entities. -/
lemma chunks_amp_entity {t : List Char} (h : SanitizedChunks t) :
    ∀ i, t[i]? = some '&' →
      ∃ e ∈ htmlEntities, (t.drop i).take e.length = e := by
  induction h with
  | nil => intro i hi; simp at hi
  | plain c rest hc hr ih =>
    intro i hi
    cases i with
    | zero =>
      rw [List.getElem?_cons_zero] at hi
      injection hi with hi
      exact absurd (show c ∈ specialChars by rw [hi]; decide) hc
    | succ i =>
      rw [List.getElem?_cons_succ] at hi
      obtain ⟨e, he, hee⟩ := ih i hi
      refine ⟨e, he, ?_⟩
      rw [List.drop_succ_cons]
      exact hee
  | ent e rest he hr ih =>
    intro i hi
    rcases Nat.lt_or_ge i e.length with hlt | hge
    · rcases Nat.eq_zero_or_pos i with rfl | hpos
      · refine ⟨e, he, ?_⟩
        rw [List.drop_zero]
        exact List.take_left e rest
      · exfalso
        rw [List.getElem?_append, if_pos hlt] at hi
        have h1 : (e.drop 1)[i - 1]? = some '&' := by
          rw [List.getElem?_drop]
          have h2 : 1 + (i - 1) = i := by omega
          rw [h2]
          exact hi
        exact (htmlEntities_tail_clean e he).2.1 (List.getElem?_mem h1)
    · rw [List.getElem?_append_right hge] at hi
      obtain ⟨e2, he2, hee⟩ := ih (i - e.length) hi
      refine ⟨e2, he2, ?_⟩
      have hdecomp : i = e.length + (i - e.length) := by omega
      rw [hdecomp, ← List.drop_drop, List.drop_left]
      exact hee

/-- C10: every comment `addComment` appends has its text passed through
`sanitizeInput` first, so the stored text contains no raw `<`, `>`, `"`
or `'` at all, and every `&` in it is the first character of one of the
five HTML entities the sanitizer substitutes. -/
theorem c10_comments_sanitized (st : AddCommentState) (pid : String)
    (now now2 : Int) (rawText rawNick tsIso : String) :
    ∀ c ∈ (addComment st pid now now2 rawText rawNick tsIso).2.comments,
      c ∈ st.comments ∨
      (c.text = sanitizeInput (jsTrim rawText) ∧
        (∀ ch ∈ c.text.data, ch ∉ (['<', '>', '"', '\''] : List Char)) ∧
        (∀ i, c.text.data[i]? = some '&' →
          ∃ e ∈ htmlEntities, (c.text.data.drop i).take e.length = e)) := by
  intro c hc
  simp only [addComment] at hc
  by_cases h1 : sanitizeInput (jsTrim rawText) = ""
  · rw [if_pos h1] at hc
    exact .inl hc
  rw [if_neg h1] at hc
  by_cases h2 : (sanitizeInput (jsTrim rawText)).length > MAX_COMMENT_LENGTH
  · rw [if_pos h2] at hc
    exact .inl hc
  rw [if_neg h2] at hc
  by_cases h3 : now - st.lastCommentTime < COMMENT_COOLDOWN
  · rw [if_pos h3] at hc
    exact .inl hc
  rw [if_neg h3] at hc
  rcases List.mem_append.mp hc with hm | hm
  · exact .inl hm
  · rw [List.mem_singleton.mp hm]
    exact .inr ⟨rfl, chunks_no_raw_specials (sanitizeInput_chunks _),
      chunks_amp_entity (sanitizeInput_chunks _)⟩

/-- The comment produced by `addComment` on the input text `"a<b&"`. -/
def c10Comment : Comment :=
  { author := "Bob", stamp := "AAAAAA", text := "a&lt;b&amp;",
    timestamp := "t" }

/-- C10 witness: on a concrete state, the comment appended for the raw
text `"a<b&"` stores the sanitized text `"a&lt;b&amp;"`, which contains
no raw special character. -/
theorem c10_witness :
    c10Comment.text = sanitizeInput (jsTrim "a<b&") ∧
    (∀ ch ∈ c10Comment.text.data,
      ch ∉ (['<', '>', '"', '\''] : List Char)) ∧
    (∀ i, c10Comment.text.data[i]? = some '&' →
      ∃ e ∈ htmlEntities,
        (c10Comment.text.data.drop i).take e.length = e) :=
  (c10_comments_sanitized exCommentState "1" 3000 3001 "a<b&" "Bob" "t"
    c10Comment (by decide)).resolve_left (by decide)
